import Mathlib

/-!
# A deck of playing cards (`deck.go`, `main.go`)

A shallow embedding of the Go program: a `deck` is a slice of strings, built by
`newDeck`, printed by `showCards`, cut by `deal`, serialised by `toString`,
written by `saveFile` and read back by `readFile`; `main` runs them in turn.

Conventions of the embedding:

* a Go `string` is an immutable sequence of bytes, so it is a `List UInt8`; the
  conversions `[]byte(s)` and `string(b)` copy the bytes and are the identity here;
* a Go slice is the list of its elements (capacity is not represented, see `deal`);
* a Go `int` is an `Int`; the program does no arithmetic on it;
* a run-time panic is `none`; a returned `error` is an `Option` or an `Except`;
* the file system is explicit state, threaded through `saveFile` and `readFile`.
* standard output is the sequence of bytes written so far, threaded through
  `showCards` and `main`.
-/

namespace Cards

/-- A Go string: a sequence of bytes. -/
abbrev GoString := List UInt8

/-- A string literal of the Go source, as its UTF-8 bytes. -/
def str (s : String) : GoString := s.toUTF8.data.toList

/-- The byte `0x2C`, the comma. -/
def comma : UInt8 := 44

/-! ## The part of Go's `strings` package the program calls -/

namespace strings

/-- Go's `strings.Join(elems, sep)`: the empty string for no element, the
element itself for one, otherwise a builder that receives `elems[0]` and then,
for every later element, `sep` followed by the element. (The length-overflow
panics of the library need more than `maxInt` bytes and are not represented.) -/
def Join (elems : List GoString) (sep : GoString) : GoString :=
  match elems with
  | [] => []
  | [e] => e
  | e :: rest => rest.foldl (fun b s => b ++ sep ++ s) e

/-- Go's `strings.Index(s, substr)`: the index of the first instance of
`substr` in `s`; `none` stands for the result `-1`. -/
def Index (s substr : GoString) : Option Nat :=
  match s with
  | [] => if substr = [] then some 0 else none
  | b :: t =>
    if (b :: t).take substr.length = substr then some 0
    else (Index t substr).map (· + 1)

/-- The generic loop of `strings.Count`: search, count, continue after the
instance found. The input shrinks by at least one byte a round, so `fuel` equal
to the length of the input is never exhausted. -/
def countLoop (substr : GoString) : Nat → GoString → Nat
  | 0, _ => 0
  | fuel + 1, s =>
    match Index s substr with
    | none => 0
    | some i => 1 + countLoop substr fuel (s.drop (i + substr.length))

/-- Go's `strings.Count(s, substr)` for a non-empty `substr`: the number of
non-overlapping instances. A one-byte `substr` takes the byte-counting path
(`bytealg.CountString`), any other the generic loop. (For an empty `substr` Go
counts UTF-8 sequences; the program never asks for that.) -/
def Count (s substr : GoString) (_h : substr ≠ []) : Nat :=
  match substr with
  | [c] => s.count c
  | _ => countLoop substr s.length s

/-- The loop of `genSplit`: `k` is `n - i`, the number of rounds left. Each
round cuts `s` at the first separator; the rest of `s` is the last element. -/
def genSplitLoop (sep : GoString) (sepSave : Nat) : Nat → GoString → List GoString
  | 0, s => [s]
  | k + 1, s =>
    match Index s sep with
    | none => [s]
    | some m => s.take (m + sepSave) :: genSplitLoop sep sepSave k (s.drop (m + sep.length))

/-- Go's `strings.genSplit(s, sep, sepSave, n)` for a non-empty `sep`: `n == 0`
returns nil, a negative `n` becomes `Count(s, sep) + 1`, `n` is capped at
`len(s) + 1`, and the loop runs at most `n - 1` rounds. (For an empty `sep` Go
explodes `s` into UTF-8 sequences; the program's separator is the constant
`","`, so that branch is excluded by the argument `h`.) -/
def genSplit (s sep : GoString) (sepSave : Nat) (n : Int) (h : sep ≠ []) : List GoString :=
  if n = 0 then []
  else
    let n1 : Nat := if n < 0 then Count s sep h + 1 else n.toNat
    let n2 : Nat := if n1 > s.length + 1 then s.length + 1 else n1
    genSplitLoop sep sepSave (n2 - 1) s

/-- Go's `strings.Split(s, sep)`, which is `genSplit(s, sep, 0, -1)`. -/
def Split (s sep : GoString) (h : sep ≠ []) : List GoString :=
  genSplit s sep 0 (-1) h

end strings

/-! ## The part of Go's `os` package the program calls -/

/-- The error value of a failed file operation. -/
inductive OsError where
  | notExist
  | permission
  | other (errno : Nat)
  deriving DecidableEq, Repr

/-- The state of the file system, as far as the program can observe it:
`read p` is what reading the whole file at path `p` gives (its bytes, or the
error of the failed read: no such file, no permission, a directory, ...), and
`writeFault p` is the error with which a write to `p` is refused, if it is.
A file that has been written successfully can be read back; permission bits
that allow writing a file but not reading it are outside the model. -/
structure FileSystem where
  read : GoString → Except OsError GoString
  writeFault : GoString → Option OsError

namespace os

/-- Go's `os.ReadFile(name)`: the whole content of the file, or the error. -/
def ReadFile (fs : FileSystem) (name : GoString) : Except OsError GoString :=
  fs.read name

/-- Go's `os.WriteFile(name, data, perm)`: creates the file or truncates it and
writes `data`. On success the file holds exactly `data` and every other path is
as before. On failure the error is returned; the state a failed write leaves
behind (a truncated or a missing file) is not represented. `perm` matters only
when the file is created. -/
def WriteFile (fs : FileSystem) (name data : GoString) (_perm : Nat) :
    Except OsError FileSystem :=
  match fs.writeFault name with
  | some err => .error err
  | none => .ok { fs with read := fun p => if p = name then .ok data else fs.read p }

end os

/-! ## The part of Go's `fmt` package the program calls

Standard output is the sequence of bytes written to it so far; a print appends
to it. (A failed write to standard output is ignored by `fmt.Println`'s callers
here and is not represented.) -/

/-- The byte `0x20`, the space. -/
def space : UInt8 := 32

/-- The byte `0x0A`, the newline. -/
def newline : UInt8 := 10

namespace fmt

/-- The operands the program passes to `fmt.Println`: an `int`, a `string`, or a
`deck` (a `[]string` without a `String` or `Error` method). -/
inductive Operand where
  | int (i : Int)
  | string (s : GoString)
  | strings (elems : List GoString)

/-- The verb `%v` on an `int`: decimal digits, with a minus sign when negative. -/
def formatInt (i : Int) : GoString :=
  if i < 0 then str "-" ++ str (Nat.repr i.natAbs) else str (Nat.repr i.toNat)

/-- The verb `%v` on a `[]string`: `[`, the elements with a space before every
element but the first, `]`. -/
def formatSlice (elems : List GoString) : GoString :=
  str "[" ++ elems.enum.foldl (fun b ie => (if ie.1 > 0 then b ++ [space] else b) ++ ie.2) []
    ++ str "]"

/-- The verb `%v` on an operand. -/
def format : Operand → GoString
  | .int i => formatInt i
  | .string s => s
  | .strings elems => formatSlice elems

/-- Go's `fmt.Println(a...)`: into a buffer go the operands in their default
format, with a space before every operand but the first, then a newline; the
buffer is written to standard output in one write. -/
def Println (a : List Operand) (stdout : GoString) : GoString :=
  stdout ++ (a.enum.foldl (fun b ia => (if ia.1 > 0 then b ++ [space] else b) ++ format ia.2) []
    ++ [newline])

end fmt

/-- A file system with no file, on which no write is refused. -/
def emptyFS : FileSystem :=
  { read := fun _ => .error .notExist, writeFault := fun _ => none }

/-- A file system with two files, `n1` holding `c1` and `n2` holding `c2`, on
which no write is refused. -/
def twoFilesFS (n1 c1 n2 c2 : GoString) : FileSystem :=
  { read := fun p => if p = n1 then .ok c1 else if p = n2 then .ok c2 else .error .notExist,
    writeFault := fun _ => none }

/-! ## `deck.go` -/

/-- The type `deck`: a slice of strings. -/
abbrev deck := List GoString

/-- The local `cardSuites` of `newDeck`. -/
def cardSuites : List GoString := [str "Spades", str "Diamonds", str "Hearts", str "Clubs"]

/-- The local `cardValues` of `newDeck`. -/
def cardValues : List GoString := [str "Ace", str "Two", str "Three", str "Four"]

/-- The function `newDeck`: the outer loop ranges over the suits, the inner loop
over the values, and each round appends `value+" of "+suite` to `cards`. -/
def newDeck : deck :=
  cardSuites.foldl
    (fun cards suite =>
      cardValues.foldl (fun cards value => cards ++ [value ++ str " of " ++ suite]) cards)
    []

/-- The method `showCards`: for every index `i` and card of `d`, in order,
`fmt.Println(i, card)`. -/
def showCards (d : deck) (stdout : GoString) : GoString :=
  d.enum.foldl (fun out ic => fmt.Println [.int ic.1, .string ic.2] out) stdout

/-- The slice expression `d[:hi]` on a slice whose capacity equals its length:
it panics unless `0 <= hi <= len(d)`. -/
def sliceTo (d : deck) (hi : Int) : Option deck :=
  if 0 ≤ hi ∧ hi ≤ d.length then some (d.take hi.toNat) else none

/-- The slice expression `d[lo:]`: it panics unless `0 <= lo <= len(d)`. -/
def sliceFrom (d : deck) (lo : Int) : Option deck :=
  if 0 ≤ lo ∧ lo ≤ d.length then some (d.drop lo.toNat) else none

/-- The function `deal`: `hand := d[:size]`, then `d = d[size:]`, then both are
returned. In Go `d[:size]` is legal up to `cap(d)`; a `size` between `len(d)`
and `cap(d)` passes the first expression and makes the second one panic, so
`deal` panics on exactly the sizes on which this model returns `none`. -/
def deal (d : deck) (size : Int) : Option (deck × deck) := do
  let hand ← sliceTo d size
  let d ← sliceFrom d size
  pure (hand, d)

/-- The method `toString`: `strings.Join([]string(d), ",")`. -/
def toString (d : deck) : GoString :=
  strings.Join d (str ",")

/-- The method `saveFile`: `os.WriteFile(filename, []byte(d.toString()), 0666)`.
The result is the new file system when the returned error is nil. -/
def saveFile (d : deck) (filename : GoString) (fs : FileSystem) : Except OsError FileSystem :=
  os.WriteFile fs filename (toString d) 0o666

/-- The function `readFile`: on a read error it returns `deck{}` and the error,
otherwise the content split at `","` and a nil error. -/
def readFile (filepath : GoString) (fs : FileSystem) : deck × Option OsError :=
  match os.ReadFile fs filepath with
  | .error err => ([], some err)
  | .ok cardFromDisk => (strings.Split cardFromDisk (str ",") (by decide), none)

/-! ## `main.go` -/

/-- The function `main`: build the deck, show it, deal 4 cards, print hand and
remainder, save `cards` to "cardfile" and drop the returned error. The result
is `none` when `deal` panics; otherwise it is standard output at exit and the
outcome of the save: the file system after a successful write, or the error
that `main` does not look at. -/
def main (stdout : GoString) (fs : FileSystem) : Option (GoString × Except OsError FileSystem) := do
  let cards := newDeck
  let stdout := showCards cards stdout
  let (hand, left) ← deal cards 4
  let stdout := fmt.Println [.strings hand, .strings left] stdout
  pure (stdout, saveFile cards (str "cardfile") fs)

/-! ## Auxiliary definitions of the proofs -/

/-- A letter of the Latin alphabet, `A` to `Z` or `a` to `z`. -/
def isLetter (b : UInt8) : Bool :=
  (65 ≤ b && b ≤ 90) || (97 ≤ b && b ≤ 122)

/-- The line that `showCards` prints for the card at position `i`: the decimal
index, one space, the label, and the newline that ends the line. -/
def cardLine (i : Nat) (card : GoString) : GoString :=
  fmt.formatInt i ++ [space] ++ card ++ [newline]

/-- What `strings.Join` writes after the first element: for each later element
the separator and the element. -/
def joinTail (sep : GoString) : List GoString → GoString
  | [] => []
  | s :: rest => sep ++ s ++ joinTail sep rest

/-! ## Deal -/

theorem sliceTo_of_le (d : deck) (size : Int) (h0 : 0 ≤ size) (h1 : size ≤ d.length) :
    sliceTo d size = some (d.take size.toNat) := by
  simp [sliceTo, h0, h1]

theorem sliceFrom_of_le (d : deck) (size : Int) (h0 : 0 ≤ size) (h1 : size ≤ d.length) :
    sliceFrom d size = some (d.drop size.toNat) := by
  simp [sliceFrom, h0, h1]

theorem deal_of_le (d : deck) (size : Int) (h0 : 0 ≤ size) (h1 : size ≤ d.length) :
    deal d size = some (d.take size.toNat, d.drop size.toNat) := by
  simp [deal, sliceTo_of_le d size h0 h1, sliceFrom_of_le d size h0 h1]

/-- C1: for every deck `d` and every `size` with `0 <= size <= len(d)`,
`deal(d, size)` returns a hand and a remainder; the hand is the first `size`
cards of `d` in order, the remainder the cards from position `size` on, the
hand has `size` cards, the remainder `len(d) - size`, and hand followed by
remainder is `d`. -/
theorem deal_spec (d : deck) (size : Int) (h0 : 0 ≤ size) (h1 : size ≤ d.length) :
    ∃ hand rest, deal d size = some (hand, rest) ∧
      hand = d.take size.toNat ∧ rest = d.drop size.toNat ∧
      (hand.length : Int) = size ∧ (rest.length : Int) = d.length - size ∧
      hand ++ rest = d := by
  refine ⟨d.take size.toNat, d.drop size.toNat, deal_of_le d size h0 h1, rfl, rfl, ?_, ?_, ?_⟩
  · rw [List.length_take]; omega
  · rw [List.length_drop]; omega
  · exact List.take_append_drop _ _

/-- The statement of `deal_spec` at a three-card deck cut after two cards. -/
theorem deal_spec_witness :
    ∃ hand rest, deal [str "a", str "b", str "c"] 2 = some (hand, rest) ∧
      hand = [str "a", str "b", str "c"].take (2 : Int).toNat ∧
      rest = [str "a", str "b", str "c"].drop (2 : Int).toNat ∧
      (hand.length : Int) = 2 ∧
      (rest.length : Int) = ([str "a", str "b", str "c"] : deck).length - 2 ∧
      hand ++ rest = [str "a", str "b", str "c"] :=
  deal_spec [str "a", str "b", str "c"] 2 (by decide) (by decide)

/-! ## Join and Split -/

theorem foldl_joinTail (sep : GoString) (rest : List GoString) (e : GoString) :
    rest.foldl (fun b s => b ++ sep ++ s) e = e ++ joinTail sep rest := by
  induction rest generalizing e with
  | nil => simp [joinTail]
  | cons s rest ih =>
    simp only [List.foldl, joinTail]
    rw [ih]
    simp [List.append_assoc]

theorem Join_cons (sep e : GoString) (rest : List GoString) :
    strings.Join (e :: rest) sep = e ++ joinTail sep rest := by
  cases rest with
  | nil => simp [strings.Join, joinTail]
  | cons s rest => simp only [strings.Join]; exact foldl_joinTail sep (s :: rest) e

theorem Index_single_none (c : UInt8) (s : GoString) (h : c ∉ s) :
    strings.Index s [c] = none := by
  induction s with
  | nil => simp [strings.Index]
  | cons b t ih =>
    have hb : b ≠ c := fun hbc => h (by simp [hbc])
    have ht : c ∉ t := fun hm => h (List.mem_cons_of_mem _ hm)
    simp [strings.Index, hb, ih ht]

theorem Index_single_append (c : UInt8) (a t : GoString) (h : c ∉ a) :
    strings.Index (a ++ c :: t) [c] = some a.length := by
  induction a with
  | nil => simp [strings.Index]
  | cons b a ih =>
    have hb : b ≠ c := fun hbc => h (by simp [hbc])
    have ha : c ∉ a := fun hm => h (List.mem_cons_of_mem _ hm)
    simp [strings.Index, hb, ih ha]

theorem count_joinTail (c : UInt8) (rest : List GoString) (h : ∀ r ∈ rest, c ∉ r) :
    (joinTail [c] rest).count c = rest.length := by
  induction rest with
  | nil => simp [joinTail]
  | cons s rest ih =>
    have hs : c ∉ s := h s (by simp)
    have hr : ∀ r ∈ rest, c ∉ r := fun r hm => h r (List.mem_cons_of_mem _ hm)
    simp [joinTail, List.count_append, List.count_eq_zero_of_not_mem hs, ih hr]

theorem genSplitLoop_joinTail (c : UInt8) (rest : List GoString) (e : GoString) (k : Nat)
    (hk : rest.length ≤ k) (he : c ∉ e) (h : ∀ r ∈ rest, c ∉ r) :
    strings.genSplitLoop [c] 0 k (e ++ joinTail [c] rest) = e :: rest := by
  induction rest generalizing e k with
  | nil =>
    cases k with
    | zero => simp [strings.genSplitLoop, joinTail]
    | succ k => simp [strings.genSplitLoop, joinTail, Index_single_none c e he]
  | cons s rest ih =>
    have hs : c ∉ s := h s (by simp)
    have hr : ∀ r ∈ rest, c ∉ r := fun r hm => h r (List.mem_cons_of_mem _ hm)
    cases k with
    | zero => simp at hk
    | succ k =>
      have hk2 : rest.length ≤ k := by simpa using hk
      have hidx : strings.Index (e ++ c :: (s ++ joinTail [c] rest)) [c] = some e.length :=
        Index_single_append c e _ he
      have hcut : e ++ joinTail [c] (s :: rest) = e ++ c :: (s ++ joinTail [c] rest) := by
        simp [joinTail]
      have htake : (e ++ c :: (s ++ joinTail [c] rest)).take e.length = e := by simp
      have hdrop : (e ++ c :: (s ++ joinTail [c] rest)).drop (e.length + 1) =
          s ++ joinTail [c] rest := by
        rw [← List.drop_drop]; simp
      rw [hcut]
      simp only [strings.genSplitLoop, hidx, Nat.add_zero, List.length_singleton, htake, hdrop]
      rw [ih s k hk2 hs hr]

theorem Split_single (c : UInt8) (s : GoString) (h : [c] ≠ []) :
    strings.Split s [c] h = strings.genSplitLoop [c] 0 (s.count c) s := by
  have hle : s.count c ≤ s.length := List.count_le_length c s
  have h1 : ¬ ((-1 : Int) = 0) := by decide
  have h2 : (-1 : Int) < 0 := by decide
  have h3 : ¬ (s.count c + 1 > s.length + 1) := by omega
  simp only [strings.Split, strings.genSplit, strings.Count, h1, h2, h3, if_true, if_false,
    Nat.add_sub_cancel]

theorem Split_Join_single (c : UInt8) (d : List GoString) (hd : d ≠ [])
    (h : ∀ card ∈ d, c ∉ card) :
    strings.Split (strings.Join d [c]) [c] (by simp) = d := by
  cases d with
  | nil => exact absurd rfl hd
  | cons e rest =>
    have he : c ∉ e := h e (by simp)
    have hr : ∀ r ∈ rest, c ∉ r := fun r hm => h r (List.mem_cons_of_mem _ hm)
    have hcount : (e ++ joinTail [c] rest).count c = rest.length := by
      rw [List.count_append, List.count_eq_zero_of_not_mem he, count_joinTail c rest hr]; omega
    rw [Join_cons, Split_single, hcount]
    exact genSplitLoop_joinTail c rest e _ (le_refl _) he hr

theorem str_comma : str "," = [comma] := by decide

theorem split_toString_aux (d : deck) (hd : d ≠ []) (h : ∀ card ∈ d, comma ∉ card) :
    strings.Split (toString d) (str ",") (by decide) = d := by
  have key := Split_Join_single comma d hd h
  simpa only [toString, str_comma] using key

/-- C2 (as amended): for every non-empty deck none of whose card labels contains
a comma, splitting `toString(d)` at `","` gives back exactly `d`. -/
theorem split_toString (d : deck) (hd : d ≠ []) (h : ∀ card ∈ d, comma ∉ card) :
    strings.Split (toString d) (str ",") (by decide) = d :=
  split_toString_aux d hd h

/-- The statement of `split_toString` at the deck of `newDeck`. -/
theorem split_toString_witness :
    strings.Split (toString newDeck) (str ",") (by decide) = newDeck :=
  split_toString newDeck (by decide) (by decide)

/-- C2 (as stated) fails at the empty deck: `toString` gives the empty string,
and splitting the empty string gives one element, the empty string. -/
theorem split_toString_empty :
    (∀ card ∈ ([] : deck), comma ∉ card) ∧
    toString [] = [] ∧
    strings.Split (toString []) (str ",") (by decide) = [[]] ∧
    strings.Split (toString []) (str ",") (by decide) ≠ ([] : deck) := by
  decide

/-! ## Construction -/

/-- C4: `newDeck()` has exactly 16 cards, the first is "Ace of Spades" and the
last is "Four of Clubs". -/
theorem newDeck_length_first_last :
    newDeck.length = 16 ∧ newDeck.head? = some (str "Ace of Spades") ∧
      newDeck.getLast? = some (str "Four of Clubs") := by
  decide

/-- C5: with suits `[Spades, Diamonds, Hearts, Clubs]` and values
`[Ace, Two, Three, Four]`, for every suit index `s` and value index `v` below 4
the card of `newDeck()` at position `4*s + v` is `values[v] ++ " of " ++ suits[s]`:
suits are the outer iteration, values the inner one. -/
theorem newDeck_order (s v : Nat) (hs : s < 4) (hv : v < 4) :
    cardSuites = [str "Spades", str "Diamonds", str "Hearts", str "Clubs"] ∧
    cardValues = [str "Ace", str "Two", str "Three", str "Four"] ∧
    ∃ suite value, cardSuites[s]? = some suite ∧ cardValues[v]? = some value ∧
      newDeck[4 * s + v]? = some (value ++ str " of " ++ suite) := by
  refine ⟨rfl, rfl, ?_⟩
  interval_cases s <;> interval_cases v <;> exact ⟨_, _, rfl, rfl, by decide⟩

/-- The statement of `newDeck_order` at the third value of the second suit. -/
theorem newDeck_order_witness :
    cardSuites[1]? = some (str "Diamonds") ∧ cardValues[2]? = some (str "Three") ∧
      newDeck[4 * 1 + 2]? = some (str "Three of Diamonds") := by
  obtain ⟨_, _, suite, value, h1, h2, h3⟩ := newDeck_order 1 2 (by decide) (by decide)
  have e1 : suite = str "Diamonds" := by
    have : cardSuites[1]? = some (str "Diamonds") := by decide
    rw [this] at h1; exact (Option.some.inj h1).symm
  have e2 : value = str "Three" := by
    have : cardValues[2]? = some (str "Three") := by decide
    rw [this] at h2; exact (Option.some.inj h2).symm
  subst e1 e2
  refine ⟨h1, h2, ?_⟩
  rw [h3]; decide

/-- C6: the cards of `newDeck()` are pairwise different: two positions that
hold the same label are the same position. -/
theorem newDeck_unique :
    newDeck.Nodup ∧
    ∀ i j : Fin newDeck.length, newDeck.get i = newDeck.get j → i = j := by
  have hn : newDeck.Nodup := by decide
  exact ⟨hn, fun i j h => (List.Nodup.get_inj_iff hn).mp h⟩

/-- The statement of `newDeck_unique` at the first and the last position, which
are different and so hold different labels. -/
theorem newDeck_unique_witness :
    newDeck.get ⟨0, by decide⟩ ≠ newDeck.get ⟨15, by decide⟩ :=
  fun h => absurd (newDeck_unique.2 ⟨0, by decide⟩ ⟨15, by decide⟩ h) (by decide)

/-- C8: `deal(newDeck(), 4)` returns the four spades, Ace to Four, as the hand,
and a remainder of 12 cards that starts with "Ace of Diamonds". -/
theorem deal_newDeck_four :
    ∃ rest, deal newDeck 4 =
        some ([str "Ace of Spades", str "Two of Spades", str "Three of Spades",
          str "Four of Spades"], rest) ∧
      rest.length = 12 ∧ rest.head? = some (str "Ace of Diamonds") :=
  ⟨newDeck.drop 4, by decide⟩

/-! ## Files -/

theorem saveFile_ok_iff (d : deck) (f : GoString) (fs fs1 : FileSystem) :
    saveFile d f fs = .ok fs1 ↔
      fs.writeFault f = none ∧
        fs1 = { fs with read := fun p => if p = f then .ok (toString d) else fs.read p } := by
  unfold saveFile os.WriteFile
  cases hw : fs.writeFault f with
  | none =>
    simp only [true_and]
    constructor
    · intro h; exact (Except.ok.inj h).symm
    · intro h; rw [h]
  | some err => simp

theorem saveFile_error_iff (d : deck) (f : GoString) (fs : FileSystem) (err : OsError) :
    saveFile d f fs = .error err ↔ fs.writeFault f = some err := by
  unfold saveFile os.WriteFile
  cases hw : fs.writeFault f with
  | none => simp
  | some e =>
    constructor
    · intro h; rw [Except.error.inj h]
    · intro h; rw [Option.some.inj h]

theorem read_after_save (d : deck) (f : GoString) (fs fs1 : FileSystem)
    (h : saveFile d f fs = .ok fs1) :
    os.ReadFile fs1 f = .ok (toString d) ∧
      (∀ p, p ≠ f → os.ReadFile fs1 p = os.ReadFile fs p) ∧
      fs1.writeFault = fs.writeFault := by
  obtain ⟨_, rfl⟩ := (saveFile_ok_iff d f fs fs1).mp h
  refine ⟨by simp [os.ReadFile], ?_, rfl⟩
  intro p hp
  simp [os.ReadFile, hp]

/-- C9: `d.saveFile(f)` returns what the write of `toString(d)` to `f` with mode
0666 returns, so it returns an error exactly when that write fails; when it
succeeds, reading `f` gives exactly `toString(d)`, whatever `f` held before, and
every other path reads as before. -/
theorem saveFile_spec (d : deck) (f : GoString) (fs : FileSystem) :
    saveFile d f fs = os.WriteFile fs f (toString d) 0o666 ∧
    (∀ err, saveFile d f fs = .error err ↔ fs.writeFault f = some err) ∧
    ((∃ fs1, saveFile d f fs = .ok fs1) ↔ fs.writeFault f = none) ∧
    (∀ fs1, saveFile d f fs = .ok fs1 →
      os.ReadFile fs1 f = .ok (toString d) ∧
      ∀ p, p ≠ f → os.ReadFile fs1 p = os.ReadFile fs p) := by
  refine ⟨rfl, saveFile_error_iff d f fs, ?_, ?_⟩
  · constructor
    · rintro ⟨fs1, h⟩; exact ((saveFile_ok_iff d f fs fs1).mp h).1
    · intro h; exact ⟨_, (saveFile_ok_iff d f fs _).mpr ⟨h, rfl⟩⟩
  · intro fs1 h
    exact ⟨(read_after_save d f fs fs1 h).1, (read_after_save d f fs fs1 h).2.1⟩

/-- The statement of `saveFile_spec` where a file "cardfile" with other content
and a file "notes" exist: the save succeeds, "cardfile" then holds the
serialised deck, and "notes" is as before. -/
theorem saveFile_spec_witness :
    ∃ fs1, saveFile newDeck (str "cardfile") (twoFilesFS (str "cardfile") (str "old")
        (str "notes") (str "abc")) = .ok fs1 ∧
      os.ReadFile fs1 (str "cardfile") = .ok (toString newDeck) ∧
      os.ReadFile fs1 (str "notes") = .ok (str "abc") := by
  have h := saveFile_spec newDeck (str "cardfile")
    (twoFilesFS (str "cardfile") (str "old") (str "notes") (str "abc"))
  obtain ⟨fs1, h1⟩ := h.2.2.1.mpr rfl
  refine ⟨fs1, h1, (h.2.2.2 fs1 h1).1, ?_⟩
  rw [(h.2.2.2 fs1 h1).2 (str "notes") (by decide)]
  rfl

/-- C7: whenever the read of the file fails, `readFile` returns that error
together with an empty deck, of length 0. -/
theorem readFile_error (filepath : GoString) (fs : FileSystem) (err : OsError)
    (h : os.ReadFile fs filepath = .error err) :
    readFile filepath fs = ([], some err) ∧ (readFile filepath fs).1.length = 0 := by
  simp [readFile, h]

/-- The statement of `readFile_error` at a path that does not exist. -/
theorem readFile_error_witness :
    os.ReadFile emptyFS (str "nowhere") = .error .notExist ∧
      readFile (str "nowhere") emptyFS = ([], some .notExist) ∧
      (readFile (str "nowhere") emptyFS).1.length = 0 :=
  ⟨rfl, readFile_error (str "nowhere") emptyFS .notExist rfl⟩

theorem readFile_ok (filepath : GoString) (fs : FileSystem) (content : GoString)
    (h : os.ReadFile fs filepath = .ok content) :
    readFile filepath fs = (strings.Split content (str ",") (by decide), none) := by
  simp [readFile, h]

/-- C3 (as amended): for every non-empty deck `d` none of whose labels contains a
comma and every filename `f`, if `d.saveFile(f)` succeeds then `readFile(f)` on
the resulting file system returns no error and a deck equal to `d`. -/
theorem save_then_read (d : deck) (f : GoString) (fs fs1 : FileSystem)
    (hd : d ≠ []) (hc : ∀ card ∈ d, comma ∉ card) (h : saveFile d f fs = .ok fs1) :
    readFile f fs1 = (d, none) := by
  rw [readFile_ok f fs1 (toString d) (read_after_save d f fs fs1 h).1,
    split_toString_aux d hd hc]

/-- The statement of `save_then_read` for the deck of `newDeck` saved to
"cardfile" on a file system without files. -/
theorem save_then_read_witness :
    ∃ fs1, saveFile newDeck (str "cardfile") emptyFS = .ok fs1 ∧
      readFile (str "cardfile") fs1 = (newDeck, none) :=
  ⟨_, rfl, save_then_read newDeck (str "cardfile") emptyFS _ (by decide) (by decide) rfl⟩

/-- C3 (as stated) fails at the empty deck: the save succeeds and writes an empty
file, and `readFile` then returns the one-element deck `[""]`, not the empty
deck. It also fails at a deck with a comma in a label: the one card "a,b" comes
back as the two cards "a" and "b". -/
theorem save_then_read_empty :
    (∃ fs1, saveFile [] (str "cardfile") emptyFS = .ok fs1 ∧
      readFile (str "cardfile") fs1 = ([[]], none) ∧
      readFile (str "cardfile") fs1 ≠ (([] : deck), none)) ∧
    (∃ fs1, saveFile [str "a,b"] (str "cardfile") emptyFS = .ok fs1 ∧
      readFile (str "cardfile") fs1 = ([str "a", str "b"], none) ∧
      readFile (str "cardfile") fs1 ≠ ([str "a,b"], none)) := by
  refine ⟨⟨_, rfl, ?_, ?_⟩, ⟨_, rfl, ?_, ?_⟩⟩
  · rw [readFile_ok _ _ (toString []) (by simp [os.ReadFile])]; decide
  · rw [readFile_ok _ _ (toString []) (by simp [os.ReadFile])]; decide
  · rw [readFile_ok _ _ (toString [str "a,b"]) (by simp [os.ReadFile])]; decide
  · rw [readFile_ok _ _ (toString [str "a,b"]) (by simp [os.ReadFile])]; decide

/-- C10: the empty deck serialises to the empty string, so a successful save of
the empty deck leaves an empty file. -/
theorem toString_empty (f : GoString) (fs fs1 : FileSystem)
    (h : saveFile [] f fs = .ok fs1) :
    toString [] = str "" ∧ (toString []).length = 0 ∧ os.ReadFile fs1 f = .ok (str "") := by
  have h1 : toString [] = str "" := by decide
  exact ⟨h1, by decide, h1 ▸ (read_after_save [] f fs fs1 h).1⟩

/-- The statement of `toString_empty` for a save to "cardfile", which held other
content before. -/
theorem toString_empty_witness :
    ∃ fs1, saveFile [] (str "cardfile") (twoFilesFS (str "cardfile") (str "old")
        (str "notes") (str "abc")) = .ok fs1 ∧
      toString [] = str "" ∧ (toString []).length = 0 ∧
      os.ReadFile fs1 (str "cardfile") = .ok (str "") :=
  ⟨_, rfl, toString_empty (str "cardfile")
    (twoFilesFS (str "cardfile") (str "old") (str "notes") (str "abc")) _ rfl⟩

/-! ## Display -/

theorem Println_int_string (i : Nat) (card stdout : GoString) :
    fmt.Println [.int i, .string card] stdout = stdout ++ cardLine i card := by
  simp [fmt.Println, List.enum, List.enumFrom, fmt.format, cardLine]

theorem showCards_enumFrom (d : deck) (n : Nat) (stdout : GoString) :
    (d.enumFrom n).foldl (fun out ic => fmt.Println [.int ic.1, .string ic.2] out) stdout =
      stdout ++ ((d.enumFrom n).map (fun ic => cardLine ic.1 ic.2)).flatten := by
  induction d generalizing n stdout with
  | nil => simp
  | cons card rest ih =>
    simp only [List.enumFrom, List.foldl_cons, List.map_cons, List.flatten_cons]
    rw [ih, Println_int_string, List.append_assoc]

theorem digitChar_no_newline :
    ∀ k : Fin 10, newline ∉ String.utf8EncodeChar (Nat.digitChar k.val) := by
  decide

theorem toDigitsCore_mem (fuel n : Nat) (ds : List Char) (c : Char)
    (h : c ∈ Nat.toDigitsCore 10 fuel n ds) : c ∈ ds ∨ ∃ k : Fin 10, c = Nat.digitChar k.val := by
  induction fuel generalizing n ds with
  | zero => exact Or.inl (by simpa [Nat.toDigitsCore] using h)
  | succ fuel ih =>
    have hk : ∃ k : Fin 10, Nat.digitChar (n % 10) = Nat.digitChar k.val :=
      ⟨⟨n % 10, Nat.mod_lt _ (by decide)⟩, rfl⟩
    simp only [Nat.toDigitsCore] at h
    split at h
    · rcases List.mem_cons.mp h with h | h
      · exact Or.inr (h ▸ hk)
      · exact Or.inl h
    · rcases ih _ _ h with h | h
      · rcases List.mem_cons.mp h with h | h
        · exact Or.inr (h ▸ hk)
        · exact Or.inl h
      · exact Or.inr h

theorem formatInt_no_newline (i : Nat) : newline ∉ fmt.formatInt i := by
  intro h
  have hi : ¬ ((i : Int) < 0) := by omega
  simp only [fmt.formatInt, hi, if_false, str, String.toUTF8, Nat.repr, List.asString,
    Array.toList, Int.toNat_ofNat, List.mem_flatMap] at h
  obtain ⟨c, hc, hn⟩ := h
  rcases toDigitsCore_mem _ _ _ c hc with h | ⟨k, rfl⟩
  · simp at h
  · exact digitChar_no_newline k hn

theorem count_newline_cardLine (i : Nat) (card : GoString) (h : newline ∉ card) :
    (cardLine i card).count newline = 1 := by
  have h1 : ([space] : GoString).count newline = 0 := by decide
  have h2 : ([newline] : GoString).count newline = 1 := by decide
  simp only [cardLine, List.count_append, List.count_eq_zero_of_not_mem h,
    List.count_eq_zero_of_not_mem (formatInt_no_newline i), h1, h2]

theorem count_newline_lines (d : deck) (n : Nat) (h : ∀ card ∈ d, newline ∉ card) :
    (((d.enumFrom n).map (fun ic => cardLine ic.1 ic.2)).flatten).count newline = d.length := by
  induction d generalizing n with
  | nil => simp
  | cons card rest ih =>
    have hc : newline ∉ card := h card (by simp)
    have hr : ∀ r ∈ rest, newline ∉ r := fun r hm => h r (List.mem_cons_of_mem _ hm)
    simp only [List.enumFrom, List.map_cons, List.flatten_cons, List.count_append,
      count_newline_cardLine n card hc, ih (n + 1) hr, List.length_cons]
    omega

/-- C11 (as amended): for every deck `d` none of whose labels holds a newline,
`showCards(d)` appends to standard output exactly `len(d)` lines, in deck order;
the line for position `i` is the decimal index `i`, one space and the label
`d[i]`, it holds no newline, and one newline ends it. -/
theorem showCards_lines (d : deck) (stdout : GoString) (hn : ∀ card ∈ d, newline ∉ card) :
    ∃ lines : List GoString,
      showCards d stdout = stdout ++ lines.flatten ∧
      lines.length = d.length ∧
      (∀ i (h : i < d.length),
        lines[i]? = some (fmt.formatInt i ++ [space] ++ d[i] ++ [newline]) ∧
        newline ∉ fmt.formatInt i ++ [space] ++ d[i]) ∧
      lines.flatten.count newline = d.length := by
  refine ⟨d.enum.map (fun ic => cardLine ic.1 ic.2), ?_, by simp, ?_, ?_⟩
  · exact showCards_enumFrom d 0 stdout
  · intro i h
    refine ⟨?_, ?_⟩
    · simp [List.getElem?_map, List.enum, List.getElem?_enumFrom, List.getElem?_eq_getElem h,
        cardLine]
    · have h1 : newline ∉ fmt.formatInt i := formatInt_no_newline i
      have h2 : newline ∉ d[i] := hn d[i] (List.getElem_mem h)
      have h3 : newline ≠ space := by decide
      simp [h1, h2, h3]
  · exact count_newline_lines d 0 hn

/-- The statement of `showCards_lines` at a two-card deck, printed after a prompt. -/
theorem showCards_lines_witness :
    ∃ lines : List GoString,
      showCards [str "x", str "y"] (str "> ") = str "> " ++ lines.flatten ∧
      lines.length = 2 ∧
      lines[1]? = some (str "1 y" ++ [newline]) ∧
      lines.flatten.count newline = 2 := by
  obtain ⟨lines, h1, h2, h3, h4⟩ :=
    showCards_lines [str "x", str "y"] (str "> ") (by decide)
  exact ⟨lines, h1, h2, by rw [(h3 1 (by decide)).1]; decide, h4⟩

/-- C11 (as stated) fails at a deck with a newline in a label: for the one card
whose label is "a", a newline, "b", `showCards` prints "0 a", a newline, "b", a
newline, which is two lines for a deck of length 1, and the first of them is
not the index, a space and the label. -/
theorem showCards_newline_label :
    ([str "a" ++ [newline] ++ str "b"] : deck).length = 1 ∧
    showCards [str "a" ++ [newline] ++ str "b"] [] =
      str "0 a" ++ [newline] ++ str "b" ++ [newline] ∧
    (showCards [str "a" ++ [newline] ++ str "b"] []).count newline = 2 ∧
    strings.Split (showCards [str "a" ++ [newline] ++ str "b"] []) [newline] (by decide) =
      [str "0 a", str "b", []] := by
  decide

/-! ## The entry point -/

theorem main_eq (stdout : GoString) (fs : FileSystem) :
    main stdout fs =
      some (fmt.Println [.strings (newDeck.take 4), .strings (newDeck.drop 4)]
        (showCards newDeck stdout), saveFile newDeck (str "cardfile") fs) := by
  have hd : deal newDeck 4 = some (newDeck.take 4, newDeck.drop 4) :=
    deal_of_le newDeck 4 (by decide) (by decide)
  simp [main, hd]

/-- C12: `main` always reaches the save, and what it saves is the deck as built
by `newDeck()`, not the remainder of the deal: when the write succeeds, the
file "cardfile" holds `toString(newDeck())`, which reads back as all 16 cards. -/
theorem main_saves_original (stdout : GoString) (fs : FileSystem) :
    ∃ out, main stdout fs = some (out, saveFile newDeck (str "cardfile") fs) ∧
      ∀ fs1, saveFile newDeck (str "cardfile") fs = .ok fs1 →
        os.ReadFile fs1 (str "cardfile") = .ok (toString newDeck) ∧
        readFile (str "cardfile") fs1 = (newDeck, none) ∧
        newDeck.length = 16 := by
  refine ⟨_, main_eq stdout fs, ?_⟩
  intro fs1 h
  have hr := (read_after_save newDeck (str "cardfile") fs fs1 h).1
  refine ⟨hr, ?_, by decide⟩
  rw [readFile_ok _ fs1 (toString newDeck) hr,
    split_toString_aux newDeck (by decide) (by decide)]

/-- The statement of `main_saves_original` for a run that starts with nothing
printed and a file "cardfile" that holds other content. -/
theorem main_saves_original_witness :
    ∃ out fs1,
      main [] (twoFilesFS (str "cardfile") (str "old") (str "notes") (str "abc")) =
        some (out, .ok fs1) ∧
      os.ReadFile fs1 (str "cardfile") = .ok (toString newDeck) ∧
      readFile (str "cardfile") fs1 = (newDeck, none) := by
  obtain ⟨out, h1, h2⟩ :=
    main_saves_original [] (twoFilesFS (str "cardfile") (str "old") (str "notes") (str "abc"))
  have hs : saveFile newDeck (str "cardfile")
      (twoFilesFS (str "cardfile") (str "old") (str "notes") (str "abc")) = .ok _ := rfl
  exact ⟨out, _, hs ▸ h1, (h2 _ hs).1, (h2 _ hs).2.1⟩

/-! ## Deal, continued -/

/-- C13 (as amended): for every deck `d` whose labels are pairwise different and
every `size` with `0 <= size <= len(d)`, no label occurs both in the hand and in
the remainder returned by `deal(d, size)`. -/
theorem deal_disjoint (d : deck) (size : Int) (hn : d.Nodup) (h0 : 0 ≤ size)
    (h1 : size ≤ d.length) :
    ∃ hand rest, deal d size = some (hand, rest) ∧ ∀ card, card ∈ hand → card ∉ rest := by
  refine ⟨_, _, deal_of_le d size h0 h1, ?_⟩
  intro card hh hr
  exact List.disjoint_take_drop hn (le_refl _) hh hr

/-- The statement of `deal_disjoint` at the deck of `newDeck`, cut after 4 cards. -/
theorem deal_disjoint_witness :
    ∃ hand rest, deal newDeck 4 = some (hand, rest) ∧ ∀ card, card ∈ hand → card ∉ rest :=
  deal_disjoint newDeck 4 (by decide) (by decide) (by decide)

/-- C13 (as stated) fails at a deck that holds a label twice: `deal` of
`["a", "a"]` at size 1 returns the hand `["a"]` and the remainder `["a"]`, and
the label "a" occurs in both. -/
theorem deal_disjoint_duplicate :
    (0 : Int) ≤ 1 ∧ (1 : Int) ≤ ([str "a", str "a"] : deck).length ∧
    deal [str "a", str "a"] 1 = some ([str "a"], [str "a"]) ∧
    ¬ (∀ card, card ∈ [str "a"] → card ∉ [str "a"]) := by
  refine ⟨by decide, by decide, by decide, ?_⟩
  intro h
  exact h (str "a") (by simp) (by simp)

/-- C14: for every deck `d` and every `size` that is negative or greater than
`len(d)`, `deal(d, size)` returns nothing, it panics; whatever the capacity of
the slice lets `d[:size]` do, the expression `d[size:]` is out of range. -/
theorem deal_out_of_range (d : deck) (size : Int) (h : size < 0 ∨ (d.length : Int) < size) :
    deal d size = none ∧ sliceFrom d size = none := by
  have h2 : ¬ (0 ≤ size ∧ size ≤ (d.length : Int)) := by omega
  simp [deal, sliceTo, sliceFrom, h2]

/-- The statement of `deal_out_of_range` at the 16 cards of `newDeck` and the
sizes 17 and -1. -/
theorem deal_out_of_range_witness :
    (deal newDeck 17 = none ∧ sliceFrom newDeck 17 = none) ∧
    (deal newDeck (-1) = none ∧ sliceFrom newDeck (-1) = none) :=
  ⟨deal_out_of_range newDeck 17 (Or.inr (by decide)),
   deal_out_of_range newDeck (-1) (Or.inl (by decide))⟩

/-! ## Construction, continued -/

/-- C15: every byte of every label of `newDeck()` is a letter or a space, and
so no label of the constructed deck holds the comma. -/
theorem newDeck_letters_spaces :
    (∀ card ∈ newDeck, ∀ b ∈ card, isLetter b = true ∨ b = space) ∧
    (∀ card ∈ newDeck, comma ∉ card) ∧
    isLetter comma = false ∧ comma ≠ space := by
  decide

/-! ## Join and Split, continued -/

theorem intercalate_cons (sep e : GoString) (rest : List GoString) :
    List.intercalate sep (e :: rest) = e ++ joinTail sep rest := by
  induction rest generalizing e with
  | nil => simp [List.intercalate, joinTail]
  | cons s rest ih =>
    have h := ih s
    simp only [List.intercalate, List.intersperse, List.flatten_cons] at h ⊢
    rw [h]
    simp [joinTail]

theorem Join_eq_intercalate (sep : GoString) (d : List GoString) :
    strings.Join d sep = List.intercalate sep d := by
  cases d with
  | nil => simp [strings.Join, List.intercalate]
  | cons e rest => rw [Join_cons, intercalate_cons]

/-- C16: for every non-empty deck `d` whose labels hold no comma, `toString(d)`
holds exactly `len(d) - 1` commas, and it is the labels of `d` in deck order
with one comma between each adjacent pair and none after the last. -/
theorem toString_commas (d : deck) (hd : d ≠ []) (h : ∀ card ∈ d, comma ∉ card) :
    (toString d).count comma = d.length - 1 ∧
      toString d = List.intercalate [comma] d := by
  refine ⟨?_, ?_⟩
  · cases d with
    | nil => exact absurd rfl hd
    | cons e rest =>
      have he : comma ∉ e := h e (by simp)
      have hr : ∀ r ∈ rest, comma ∉ r := fun r hm => h r (List.mem_cons_of_mem _ hm)
      rw [toString, str_comma, Join_cons, List.count_append,
        List.count_eq_zero_of_not_mem he, count_joinTail comma rest hr]
      simp
  · rw [toString, str_comma, Join_eq_intercalate]

/-- The statement of `toString_commas` at the deck of `newDeck`: 15 commas. -/
theorem toString_commas_witness :
    (toString newDeck).count comma = 15 ∧
      toString newDeck = List.intercalate [comma] newDeck :=
  toString_commas newDeck (by decide) (by decide)

theorem genSplitLoop_step (c : UInt8) (a t : GoString) (k : Nat) (h : c ∉ a) :
    strings.genSplitLoop [c] 0 (k + 1) (a ++ c :: t) = a :: strings.genSplitLoop [c] 0 k t := by
  have htake : (a ++ c :: t).take a.length = a := by simp
  have hdrop : (a ++ c :: t).drop (a.length + 1) = t := by
    rw [← List.drop_drop]; simp
  simp only [strings.genSplitLoop, Index_single_append c a t h, Nat.add_zero,
    List.length_singleton, htake, hdrop]

theorem genSplitLoop_ne_nil (sep : GoString) (sepSave k : Nat) (s : GoString) :
    strings.genSplitLoop sep sepSave k s ≠ [] := by
  cases k with
  | zero => simp [strings.genSplitLoop]
  | succ k =>
    simp only [strings.genSplitLoop]
    split <;> simp

theorem count_first (c : UInt8) (a t : GoString) (h : c ∉ a) :
    (a ++ c :: t).count c = t.count c + 1 := by
  simp [List.count_append, List.count_eq_zero_of_not_mem h]

theorem genSplitLoop_length (c : UInt8) (k : Nat) (s : GoString) (hk : s.count c = k) :
    (strings.genSplitLoop [c] 0 k s).length = k + 1 := by
  induction k generalizing s with
  | zero => simp [strings.genSplitLoop]
  | succ k ih =>
    have hm : c ∈ s := List.count_pos_iff.mp (by omega)
    obtain ⟨a, t, rfl, ha⟩ := List.eq_append_cons_of_mem hm
    have ht : t.count c = k := by rw [count_first c a t ha] at hk; omega
    rw [genSplitLoop_step c a t k ha, List.length_cons, ih t ht]

theorem joinTail_of_ne_nil (sep : GoString) (l : List GoString) (h : l ≠ []) :
    joinTail sep l = sep ++ strings.Join l sep := by
  cases l with
  | nil => exact absurd rfl h
  | cons e r => rw [Join_cons]; simp [joinTail]

theorem Join_genSplitLoop (c : UInt8) (k : Nat) (s : GoString) (hk : s.count c = k) :
    strings.Join (strings.genSplitLoop [c] 0 k s) [c] = s := by
  induction k generalizing s with
  | zero => simp [strings.genSplitLoop, strings.Join]
  | succ k ih =>
    have hm : c ∈ s := List.count_pos_iff.mp (by omega)
    obtain ⟨a, t, rfl, ha⟩ := List.eq_append_cons_of_mem hm
    have ht : t.count c = k := by rw [count_first c a t ha] at hk; omega
    rw [genSplitLoop_step c a t k ha, Join_cons,
      joinTail_of_ne_nil _ _ (genSplitLoop_ne_nil _ _ _ _), ih t ht]
    simp

theorem Split_comma_length (s : GoString) :
    (strings.Split s (str ",") (by decide)).length = s.count comma + 1 := by
  have h := genSplitLoop_length comma (s.count comma) s rfl
  rw [← Split_single comma s (by simp)] at h
  simpa only [str_comma] using h

theorem Join_Split_comma (s : GoString) :
    toString (strings.Split s (str ",") (by decide)) = s := by
  have h := Join_genSplitLoop comma (s.count comma) s rfl
  rw [← Split_single comma s (by simp)] at h
  simpa only [toString, str_comma] using h

/-! ## Files, continued -/

/-- C17: for every file that can be read, `readFile` returns no error and a deck
that is not empty: it has one card more than the content has commas, and for an
empty file it is the one-card deck `[""]`. -/
theorem readFile_nonempty (filepath : GoString) (fs : FileSystem) (content : GoString)
    (h : os.ReadFile fs filepath = .ok content) :
    ∃ cards : deck, readFile filepath fs = (cards, none) ∧ cards ≠ [] ∧
      cards.length = content.count comma + 1 ∧ (content = [] → cards = [[]]) := by
  refine ⟨_, readFile_ok filepath fs content h, ?_, Split_comma_length content, ?_⟩
  · intro hnil
    have := Split_comma_length content
    rw [hnil] at this
    simp at this
  · intro hc
    subst hc
    decide

/-- The statement of `readFile_nonempty` at an empty file "cardfile". -/
theorem readFile_nonempty_witness :
    ∃ cards : deck,
      readFile (str "cardfile") (twoFilesFS (str "cardfile") [] (str "notes") (str "a,b")) =
        (cards, none) ∧
      cards ≠ [] ∧ cards.length = ([] : GoString).count comma + 1 ∧
      (([] : GoString) = [] → cards = [[]]) :=
  readFile_nonempty (str "cardfile") (twoFilesFS (str "cardfile") [] (str "notes") (str "a,b"))
    [] rfl

/-- C18: for every string `s`, joining the pieces of `s` split at `","` with
`","` gives `s` again; so for every file that can be read, the deck that
`readFile` returns, with no error, serialises to the content of the file. -/
theorem toString_readFile (filepath : GoString) (fs : FileSystem) (content : GoString)
    (h : os.ReadFile fs filepath = .ok content) :
    (∀ s : GoString, toString (strings.Split s (str ",") (by decide)) = s) ∧
      (readFile filepath fs).2 = none ∧ toString (readFile filepath fs).1 = content := by
  refine ⟨Join_Split_comma, ?_, ?_⟩
  · rw [readFile_ok filepath fs content h]
  · rw [readFile_ok filepath fs content h]
    exact Join_Split_comma content

/-- The statement of `toString_readFile` at a file with empty fields and a
trailing comma. -/
theorem toString_readFile_witness :
    (∀ s : GoString, toString (strings.Split s (str ",") (by decide)) = s) ∧
      (readFile (str "notes") (twoFilesFS (str "cardfile") [] (str "notes") (str "a,,b,"))).2 =
        none ∧
      toString (readFile (str "notes")
        (twoFilesFS (str "cardfile") [] (str "notes") (str "a,,b,"))).1 = str "a,,b," :=
  toString_readFile (str "notes") (twoFilesFS (str "cardfile") [] (str "notes") (str "a,,b,"))
    (str "a,,b,") rfl

end Cards
